import Mathlib

/-!
# ConfidentialStakePoint — shallow embedding

A shallow embedding of the `ConfidentialStakePoint` Solidity contract
(confidential staking vault).  The contract state we model is:

* `_unstakeRequests` — the pending-withdrawal registry, a Solidity
  `mapping(euint64 => address)`;
* the per-account encrypted balances maintained by the base `ERC7984`
  token (here the plaintext view of those balances, since the ledger
  delegates all ciphertext arithmetic to the external FHE engine);
* the plaintext value associated with each encrypted handle (the
  external engine's secret state, needed to express what the honest
  decryption oracle attests);
* the contract's ETH balance, its outgoing ETH transfers, and the log
  of emitted events.

Encrypted `euint64` handles and `address`es are modelled as `Nat`
(`0` standing for `address(0)`); mappings are modelled as association
lists whose lookup defaults to `0`, matching Solidity mapping
semantics.  Each external (public) function is a Lean function
`... → Except ContractError LedgerState`; an `error` result models an
EVM revert, i.e. the committed state is the unchanged pre-state
(captured by `commit`).  External collaborators (the decryption-proof
verifier and the low-level ETH `call`) are passed in as oracle
functions, so theorems quantify over their behaviour.
-/

/-- `uint256 public constant STAKE_SCALE = 1e12;` — wei per stake unit. -/
def STAKE_SCALE : Nat := 10 ^ 12

/-- `type(uint64).max`, the largest representable stake-unit count. -/
def UINT64_MAX : Nat := 2 ^ 64 - 1

/-- The events emitted by the contract: `Staked`, `UnstakeRequested`,
`UnstakeFinalized`. -/
inductive LedgerEvent where
  | staked (staker weiAmount stakeUnits : Nat)
  | unstakeRequested (staker handle : Nat)
  | unstakeFinalized (recipient stakeUnits weiAmount : Nat)
deriving DecidableEq, Repr

/-- The custom errors of the contract, plus the revert raised inside
`FHE.checkSignatures` when the decryption proof does not verify. -/
inductive ContractError where
  | invalidStakeAmount
  | invalidUnstakeRequest (amount : Nat)
  | transferFailed
  | proofVerificationFailed
deriving DecidableEq, Repr

/-- The observable state of the ledger (contract storage, ETH flows and
event log), together with the plaintext view of the external FHE
engine's handles and balances. -/
structure LedgerState where
  /-- `mapping(euint64 => address) private _unstakeRequests`. -/
  unstakeRequests : List (Nat × Nat)
  /-- plaintext view of the per-account encrypted unit balances
  maintained by the base token. -/
  balances : List (Nat × Nat)
  /-- plaintext value carried by each encrypted handle (engine state;
  what an honest decryption oracle would attest for the handle). -/
  handlePlain : List (Nat × Nat)
  /-- the contract's ETH balance, in wei. -/
  ethBalance : Nat
  /-- outgoing ETH transfers performed so far: (recipient, wei). -/
  outTransfers : List (Nat × Nat)
  /-- emitted events, oldest first. -/
  events : List LedgerEvent
deriving DecidableEq, Repr

deriving instance DecidableEq for Except

/-- Solidity-mapping lookup over an association list: the value of the
first entry with the given key, `0` (the default value) if absent. -/
def mapGet (l : List (Nat × Nat)) (k : Nat) : Nat :=
  match l.find? (fun p => p.1 == k) with
  | some p => p.2
  | none => 0

/-- `delete m[k]`: remove every entry for key `k` (a mapping holds one
slot per key, so the key simply reverts to the default value). -/
def mapDelete (l : List (Nat × Nat)) (k : Nat) : List (Nat × Nat) :=
  l.filter (fun p => p.1 != k)

/-- EVM transaction semantics: an `error` result is a revert, so the
committed state is the pre-state; an `ok` result commits the new state. -/
def commit (st : LedgerState) (r : Except ContractError LedgerState) : LedgerState :=
  match r with
  | .ok st2 => st2
  | .error _ => st

/-- `commit` for operations that also return a value (`_requestUnstake`
returns the burnt-amount handle). -/
def commitP (st : LedgerState) (r : Except ContractError (LedgerState × Nat)) : LedgerState :=
  match r with
  | .ok p => p.1
  | .error _ => st

/-- `function stake() external payable returns (euint64 mintedAmount)`.

Validates `msg.value` (nonzero, multiple of `STAKE_SCALE`, quotient
fits `uint64`), then mints `msg.value / STAKE_SCALE` units into the
caller's balance and emits `Staked`.  The mint itself
(`_mint(msg.sender, FHE.asEuint64(stakeUnits))`) is library/engine
code; modelled from the spec: the engine adds the minted unit count to
the caller's existing encrypted balance (additive homomorphic
accumulation).  On success the contract also holds the `msg.value` wei
sent with the call. -/
def stake (caller msgValue : Nat) (st : LedgerState) : Except ContractError LedgerState :=
  if msgValue = 0 ∨ msgValue % STAKE_SCALE ≠ 0 then
    .error .invalidStakeAmount
  else
    let scaled := msgValue / STAKE_SCALE
    if UINT64_MAX < scaled then
      .error .invalidStakeAmount
    else
      let stakeUnits := scaled
      .ok { st with
        balances := (caller, mapGet st.balances caller + stakeUnits) :: st.balances,
        ethBalance := st.ethBalance + msgValue,
        events := st.events ++ [.staked caller msgValue stakeUnits] }

/-- `function _requestUnstake(address from, euint64 amount) internal`.

`engineHandle` is the burnt-amount handle produced by the external FHE
engine for this burn (the engine issues handles; they are not locally
generated, so we quantify over the engine's choice — this is what makes
the duplicate-handle guard meaningful).  The burn
(`_burn(from, amount)`) is library/engine code; modelled from the spec:
the engine subtracts the amount from the caller's encrypted balance and
cannot underflow the plaintext, so the actually-burnt plaintext is the
requested amount when covered by the balance and `0` otherwise.  The
handle is then made publicly decryptable, the duplicate-handle guard
rejects a handle that already has a registered pending withdrawal, the
handle is registered to `fromAddr`, and `UnstakeRequested` is emitted. -/
def _requestUnstake (engineHandle fromAddr amountPlain : Nat) (st : LedgerState) :
    Except ContractError (LedgerState × Nat) :=
  let bal := mapGet st.balances fromAddr
  let burntPlain := if amountPlain ≤ bal then amountPlain else 0
  let st1 : LedgerState := { st with
    balances := (fromAddr, bal - burntPlain) :: st.balances,
    handlePlain := (engineHandle, burntPlain) :: st.handlePlain }
  if mapGet st1.unstakeRequests engineHandle ≠ 0 then
    .error (.invalidUnstakeRequest engineHandle)
  else
    .ok ({ st1 with
      unstakeRequests := (engineHandle, fromAddr) :: st1.unstakeRequests,
      events := st1.events ++ [.unstakeRequested fromAddr engineHandle] }, engineHandle)

/-- `uint256 weiAmount = uint256(burntAmountCleartext) * STAKE_SCALE;`
— the wei amount released by `finalizeUnstake`. -/
def finalizeWeiAmount (burntAmountCleartext : Nat) : Nat :=
  burntAmountCleartext * STAKE_SCALE

/-- The state in which everything after the registry deletion in
`finalizeUnstake` executes: `delete _unstakeRequests[burntAmount]` has
been applied, nothing else has changed yet. -/
def erasePending (st : LedgerState) (burntAmount : Nat) : LedgerState :=
  { st with unstakeRequests := mapDelete st.unstakeRequests burntAmount }

/-- `function finalizeUnstake(euint64 burntAmount, uint64
burntAmountCleartext, bytes calldata decryptionProof) external`.

Looks up the registered recipient (reverting with
`InvalidUnstakeRequest` when the slot holds `address(0)`), deletes the
registry entry, verifies the decryption proof via the external verifier
(`FHE.checkSignatures`, an oracle `verify` over the handle, the claimed
cleartext and the proof bytes; reverting when it rejects), then performs
the low-level ETH `call` of `burntAmountCleartext * STAKE_SCALE` wei to
the recipient (an EVM value call succeeds only when the `transferOk`
oracle accepts it and the contract balance covers the value), reverting
with `TransferFailed` on failure, and finally emits `UnstakeFinalized`.
`caller` is `msg.sender`; the function body never consults it. -/
def finalizeUnstake (verify : Nat → Nat → List Nat → Bool)
    (transferOk : Nat → Nat → Bool) (caller : Nat)
    (burntAmount burntAmountCleartext : Nat) (decryptionProof : List Nat)
    (st : LedgerState) : Except ContractError LedgerState :=
  let toAddr := mapGet st.unstakeRequests burntAmount
  if toAddr = 0 then
    .error (.invalidUnstakeRequest burntAmount)
  else
    let st1 := erasePending st burntAmount
    if verify burntAmount burntAmountCleartext decryptionProof = true then
      let weiAmount := finalizeWeiAmount burntAmountCleartext
      if weiAmount ≤ st1.ethBalance ∧ transferOk toAddr weiAmount = true then
        .ok { st1 with
          ethBalance := st1.ethBalance - weiAmount,
          outTransfers := st1.outTransfers ++ [(toAddr, weiAmount)],
          events := st1.events ++ [.unstakeFinalized toAddr burntAmountCleartext weiAmount] }
      else
        .error .transferFailed
    else
      .error .proofVerificationFailed

/-- Modelled from the spec: the honest Decryption Oracle / Proof
Verifier for a given engine state — it attests a cleartext for a handle
exactly when that cleartext is the plaintext the engine associates with
the handle. -/
def honestVerify (st : LedgerState) : Nat → Nat → List Nat → Bool :=
  fun h c _ => mapGet st.handlePlain h == c

/-- The registry well-formedness invariant: handle keys are pairwise
distinct and every registered recipient is a nonzero address. -/
def ReqInv (st : LedgerState) : Prop :=
  (st.unstakeRequests.map Prod.fst).Nodup ∧ ∀ p ∈ st.unstakeRequests, p.2 ≠ 0

/-- A sample state with one registered pending withdrawal: handle `7`
registered to recipient `3`, with the contract holding exactly
`STAKE_SCALE` wei. -/
def sampleReqSt : LedgerState :=
  { unstakeRequests := [(7, 3)], balances := [], handlePlain := [],
    ethBalance := STAKE_SCALE, outTransfers := [], events := [] }

/-- `sampleReqSt` after a successful `finalizeUnstake` of handle `7`
with cleartext `1`: the entry is gone, `STAKE_SCALE` wei went to
recipient `3`, and `UnstakeFinalized` was emitted. -/
def sampleFinSt : LedgerState :=
  { unstakeRequests := [], balances := [], handlePlain := [],
    ethBalance := 0, outTransfers := [(3, STAKE_SCALE)],
    events := [.unstakeFinalized 3 1 STAKE_SCALE] }

/-- The empty initial state. -/
def stakeSt0 : LedgerState :=
  { unstakeRequests := [], balances := [], handlePlain := [],
    ethBalance := 0, outTransfers := [], events := [] }

/-- `stakeSt0` after account `1` stakes `2 × 10^18` wei (spec scenario
A): `2 × 10^6` units minted. -/
def stakeSt1 : LedgerState :=
  { unstakeRequests := [], balances := [(1, 2000000)], handlePlain := [],
    ethBalance := 2 * 10 ^ 18, outTransfers := [],
    events := [.staked 1 (2 * 10 ^ 18) 2000000] }

/-- `stakeSt1` after account `1` requests an unstake of `10^6` units,
the engine issuing burnt-amount handle `7` (spec scenario B, request
phase). -/
def reqSt2 : LedgerState :=
  { unstakeRequests := [(7, 1)], balances := [(1, 1000000), (1, 2000000)],
    handlePlain := [(7, 1000000)], ethBalance := 2 * 10 ^ 18, outTransfers := [],
    events := [.staked 1 (2 * 10 ^ 18) 2000000, .unstakeRequested 1 7] }

/-- `reqSt2` after the unstake of handle `7` is finalized with the
honest decryption attestation of `10^6` units (spec scenario B,
finalize phase): `10^18` wei released to account `1`. -/
def finSt3 : LedgerState :=
  { unstakeRequests := [], balances := [(1, 1000000), (1, 2000000)],
    handlePlain := [(7, 1000000)], ethBalance := 2 * 10 ^ 18 - 10 ^ 18,
    outTransfers := [(1, 10 ^ 18)],
    events := [.staked 1 (2 * 10 ^ 18) 2000000, .unstakeRequested 1 7,
      .unstakeFinalized 1 1000000 (10 ^ 18)] }

/-- `sampleReqSt` after account `5` stakes `STAKE_SCALE` wei. -/
def c9StakeSt : LedgerState :=
  { unstakeRequests := [(7, 3)], balances := [(5, 1)], handlePlain := [],
    ethBalance := STAKE_SCALE + STAKE_SCALE, outTransfers := [],
    events := [.staked 5 STAKE_SCALE 1] }

/-- `sampleReqSt` after account `2` requests an unstake of `0` units on
engine handle `9`. -/
def c9ReqSt : LedgerState :=
  { unstakeRequests := [(9, 2), (7, 3)], balances := [(2, 0)],
    handlePlain := [(9, 0)], ethBalance := STAKE_SCALE, outTransfers := [],
    events := [.unstakeRequested 2 9] }

/-! ## Helper lemmas -/

theorem mapGet_cons (a b k : Nat) (t : List (Nat × Nat)) :
    mapGet ((a, b) :: t) k = if a = k then b else mapGet t k := by
  by_cases h : a = k
  · subst h
    have hf : List.find? (fun p => p.1 == a) ((a, b) :: t) = some (a, b) :=
      List.find?_cons_of_pos _ (by simp)
    simp [mapGet, hf]
  · have hf : List.find? (fun p => p.1 == k) ((a, b) :: t) =
        List.find? (fun p => p.1 == k) t :=
      List.find?_cons_of_neg _ (by simp [h])
    simp [mapGet, hf, h]

theorem mapGet_delete_self (l : List (Nat × Nat)) (k : Nat) :
    mapGet (mapDelete l k) k = 0 := by
  induction l with
  | nil => rfl
  | cons p t ih =>
    rcases p with ⟨a, b⟩
    by_cases h : a = k
    · have hd : mapDelete ((a, b) :: t) k = mapDelete t k := by
        simp [mapDelete, List.filter_cons, h]
      rw [hd]
      exact ih
    · have hd : mapDelete ((a, b) :: t) k = (a, b) :: mapDelete t k := by
        simp [mapDelete, List.filter_cons, h]
      rw [hd, mapGet_cons, if_neg h]
      exact ih

theorem mapGet_eq_zero_iff (l : List (Nat × Nat)) (k : Nat)
    (hv : ∀ p ∈ l, p.2 ≠ 0) :
    mapGet l k = 0 ↔ ∀ p ∈ l, p.1 ≠ k := by
  induction l with
  | nil => simp [mapGet]
  | cons p t ih =>
    rcases p with ⟨a, b⟩
    have hv2 : ∀ q ∈ t, q.2 ≠ 0 := fun q hq => hv q (List.mem_cons_of_mem _ hq)
    by_cases h : a = k
    · subst h
      rw [mapGet_cons, if_pos rfl]
      constructor
      · intro hb
        exact absurd hb (hv (a, b) (List.mem_cons_self _ _))
      · intro hall
        exact absurd rfl (hall (a, b) (List.mem_cons_self _ _))
    · rw [mapGet_cons, if_neg h, ih hv2]
      constructor
      · intro h2 q hq
        rcases List.mem_cons.mp hq with rfl | hq2
        · exact h
        · exact h2 q hq2
      · intro h2 q hq
        exact h2 q (List.mem_cons_of_mem _ hq)

theorem not_mem_keys_of_mapGet_eq_zero (l : List (Nat × Nat)) (k : Nat)
    (hv : ∀ p ∈ l, p.2 ≠ 0) (h : mapGet l k = 0) :
    k ∉ l.map Prod.fst := by
  intro hmem
  rcases List.mem_map.mp hmem with ⟨p, hp, hpk⟩
  exact (mapGet_eq_zero_iff l k hv).mp h p hp hpk

theorem nodup_keys_mapDelete (l : List (Nat × Nat)) (k : Nat)
    (h : (l.map Prod.fst).Nodup) :
    ((mapDelete l k).map Prod.fst).Nodup :=
  List.Nodup.sublist (List.Sublist.map Prod.fst (List.filter_sublist l)) h

theorem mem_of_mem_mapDelete (l : List (Nat × Nat)) (k : Nat) (p : Nat × Nat)
    (h : p ∈ mapDelete l k) : p ∈ l :=
  List.mem_of_mem_filter h

/-- Inversion of a successful `finalizeUnstake` run: the handle was
registered, the proof verified, the contract balance covered the wei
amount, the transfer went through, and the post-state is the pre-state
with the entry deleted, the ETH paid out to the registered recipient,
and `UnstakeFinalized` appended. -/
theorem finalizeUnstake_ok_inv (verify : Nat → Nat → List Nat → Bool)
    (transferOk : Nat → Nat → Bool) (caller h cl : Nat) (pf : List Nat)
    (st st' : LedgerState)
    (hok : finalizeUnstake verify transferOk caller h cl pf st = .ok st') :
    mapGet st.unstakeRequests h ≠ 0 ∧
    verify h cl pf = true ∧
    finalizeWeiAmount cl ≤ st.ethBalance ∧
    transferOk (mapGet st.unstakeRequests h) (finalizeWeiAmount cl) = true ∧
    st' = { st with
      unstakeRequests := mapDelete st.unstakeRequests h,
      ethBalance := st.ethBalance - finalizeWeiAmount cl,
      outTransfers := st.outTransfers ++
        [(mapGet st.unstakeRequests h, finalizeWeiAmount cl)],
      events := st.events ++
        [.unstakeFinalized (mapGet st.unstakeRequests h) cl (finalizeWeiAmount cl)] } := by
  unfold finalizeUnstake at hok
  dsimp only at hok
  split at hok
  · exact absurd hok (by simp)
  · split at hok
    · split at hok
      · rename_i hne hv htr
        refine ⟨hne, hv, htr.1, htr.2, ?_⟩
        injection hok with hst
        rw [← hst]
        rfl
      · exact absurd hok (by simp)
    · exact absurd hok (by simp)

/-- An unregistered handle (lookup gives `address(0)`) makes
`finalizeUnstake` revert immediately with `InvalidUnstakeRequest`. -/
theorem finalizeUnstake_err_of_lookup_zero (verify : Nat → Nat → List Nat → Bool)
    (transferOk : Nat → Nat → Bool) (caller h cl : Nat) (pf : List Nat)
    (st : LedgerState) (hz : mapGet st.unstakeRequests h = 0) :
    finalizeUnstake verify transferOk caller h cl pf st =
      .error (.invalidUnstakeRequest h) := by
  unfold finalizeUnstake
  simp [hz]

/-- Inversion of a successful `_requestUnstake` run. -/
theorem requestUnstake_ok_inv (engineHandle fromAddr amountPlain : Nat)
    (st st2 : LedgerState) (h2 : Nat)
    (hok : _requestUnstake engineHandle fromAddr amountPlain st = .ok (st2, h2)) :
    mapGet st.unstakeRequests engineHandle = 0 ∧
    h2 = engineHandle ∧
    st2 = { st with
      balances := (fromAddr, mapGet st.balances fromAddr -
        (if amountPlain ≤ mapGet st.balances fromAddr then amountPlain else 0)) ::
        st.balances,
      handlePlain := (engineHandle,
        if amountPlain ≤ mapGet st.balances fromAddr then amountPlain else 0) ::
        st.handlePlain,
      unstakeRequests := (engineHandle, fromAddr) :: st.unstakeRequests,
      events := st.events ++ [.unstakeRequested fromAddr engineHandle] } := by
  unfold _requestUnstake at hok
  dsimp only at hok
  split at hok
  · exact absurd hok (by simp)
  · rename_i hz
    have hz2 : mapGet st.unstakeRequests engineHandle = 0 := by simpa using hz
    injection hok with hpair
    injection hpair with hA hB
    refine ⟨hz2, hB.symm, ?_⟩
    rw [← hA]

/-! ## Claims -/

/-- Claim C1: replay protection — for every handle `h`, if a
`finalizeUnstake` call on `h` succeeds, then a second `finalizeUnstake`
call on `h` (with any caller, clear value, proof, verifier and transfer
behaviour) fails with `InvalidUnstakeRequest` and transfers no ETH (the
committed state is unchanged), because the pending entry for `h` was
deleted by the first call. -/
theorem finalize_replay_protection
    (verify : Nat → Nat → List Nat → Bool) (transferOk : Nat → Nat → Bool)
    (caller h cl : Nat) (pf : List Nat) (st st' : LedgerState)
    (hok : finalizeUnstake verify transferOk caller h cl pf st = .ok st')
    (verify2 : Nat → Nat → List Nat → Bool) (transferOk2 : Nat → Nat → Bool)
    (caller2 cl2 : Nat) (pf2 : List Nat) :
    finalizeUnstake verify2 transferOk2 caller2 h cl2 pf2 st' =
      .error (.invalidUnstakeRequest h) ∧
    commit st' (finalizeUnstake verify2 transferOk2 caller2 h cl2 pf2 st') = st' := by
  obtain ⟨-, -, -, -, hst⟩ := finalizeUnstake_ok_inv _ _ _ _ _ _ _ _ hok
  have hz : mapGet st'.unstakeRequests h = 0 := by
    rw [hst]
    exact mapGet_delete_self _ _
  have he := finalizeUnstake_err_of_lookup_zero verify2 transferOk2 caller2 h cl2 pf2 st' hz
  refine ⟨he, ?_⟩
  rw [he]
  rfl

/-- Witness for C1 at a concrete input: finalizing handle `7` on
`sampleReqSt` succeeds and the replayed finalize fails. -/
theorem finalize_replay_protection_witness :
    finalizeUnstake (fun _ _ _ => true) (fun _ _ => true) 9 7 2 [5] sampleFinSt =
      .error (.invalidUnstakeRequest 7) ∧
    commit sampleFinSt
      (finalizeUnstake (fun _ _ _ => true) (fun _ _ => true) 9 7 2 [5] sampleFinSt) =
      sampleFinSt :=
  finalize_replay_protection (fun _ _ _ => true) (fun _ _ => true) 8 7 1 []
    sampleReqSt sampleFinSt (by decide) (fun _ _ _ => true) (fun _ _ => true) 9 2 [5]

/-- Claim C2: in `finalizeUnstake` the registry deletion happens before
proof verification and before the external ETH transfer — everything
after the lookup executes in the state `erasePending st h`, in which
the entry for `h` is absent (first conjunct), so a re-entrant
`finalizeUnstake` on the same handle during the transfer runs in a
state whose lookup gives `address(0)` and always fails (third
conjunct); in general, the ledger never transfers for a handle whose
lookup is zero: such a call reverts before reaching the transfer
(second conjunct). -/
theorem finalize_deletes_before_transfer
    (verify : Nat → Nat → List Nat → Bool) (transferOk : Nat → Nat → Bool)
    (caller h cl : Nat) (pf : List Nat) (st : LedgerState) :
    mapGet (erasePending st h).unstakeRequests h = 0 ∧
    (mapGet st.unstakeRequests h = 0 →
      finalizeUnstake verify transferOk caller h cl pf st =
        .error (.invalidUnstakeRequest h)) ∧
    finalizeUnstake verify transferOk caller h cl pf (erasePending st h) =
      .error (.invalidUnstakeRequest h) := by
  have hz : mapGet (erasePending st h).unstakeRequests h = 0 :=
    mapGet_delete_self st.unstakeRequests h
  exact ⟨hz, fun h0 => finalizeUnstake_err_of_lookup_zero _ _ _ _ _ _ _ h0,
    finalizeUnstake_err_of_lookup_zero _ _ _ _ _ _ _ hz⟩

/-- Witness for C2 at a concrete input. -/
theorem finalize_deletes_before_transfer_witness :
    mapGet (erasePending sampleFinSt 7).unstakeRequests 7 = 0 ∧
    finalizeUnstake (fun _ _ _ => true) (fun _ _ => true) 1 7 1 [] sampleFinSt =
      .error (.invalidUnstakeRequest 7) ∧
    finalizeUnstake (fun _ _ _ => true) (fun _ _ => true) 1 7 1 []
      (erasePending sampleFinSt 7) = .error (.invalidUnstakeRequest 7) := by
  obtain ⟨h1, h2, h3⟩ := finalize_deletes_before_transfer
    (fun _ _ _ => true) (fun _ _ => true) 1 7 1 [] sampleFinSt
  exact ⟨h1, h2 (by decide), h3⟩

/-- Claim C3: if the low-level ETH transfer inside `finalizeUnstake`
fails (the transfer call is rejected or the contract balance cannot
cover the amount), the whole operation reverts with `TransferFailed`;
the committed state is the unchanged pre-call state (entry still
registered, no ETH out, no event), and the same request can be
finalized again later: with a succeeding transfer the same call goes
through. -/
theorem finalize_transfer_failure_atomic
    (verify : Nat → Nat → List Nat → Bool) (transferOk : Nat → Nat → Bool)
    (caller h cl : Nat) (pf : List Nat) (st : LedgerState)
    (hreg : ¬ mapGet st.unstakeRequests h = 0)
    (hv : verify h cl pf = true)
    (hfail : ¬ (finalizeWeiAmount cl ≤ st.ethBalance ∧
      transferOk (mapGet st.unstakeRequests h) (finalizeWeiAmount cl) = true)) :
    finalizeUnstake verify transferOk caller h cl pf st = .error .transferFailed ∧
    commit st (finalizeUnstake verify transferOk caller h cl pf st) = st ∧
    (∀ transferOk2 : Nat → Nat → Bool,
      finalizeWeiAmount cl ≤ st.ethBalance →
      transferOk2 (mapGet st.unstakeRequests h) (finalizeWeiAmount cl) = true →
      finalizeUnstake verify transferOk2 caller h cl pf st = .ok { st with
        unstakeRequests := mapDelete st.unstakeRequests h,
        ethBalance := st.ethBalance - finalizeWeiAmount cl,
        outTransfers := st.outTransfers ++
          [(mapGet st.unstakeRequests h, finalizeWeiAmount cl)],
        events := st.events ++
          [.unstakeFinalized (mapGet st.unstakeRequests h) cl
            (finalizeWeiAmount cl)] }) := by
  have hmain : finalizeUnstake verify transferOk caller h cl pf st =
      .error .transferFailed := by
    unfold finalizeUnstake
    dsimp only [erasePending]
    rw [if_neg hreg, if_pos hv, if_neg hfail]
  refine ⟨hmain, by rw [hmain]; rfl, ?_⟩
  intro t2 hle ht2
  unfold finalizeUnstake
  dsimp only [erasePending]
  rw [if_neg hreg, if_pos hv, if_pos ⟨hle, ht2⟩]

/-- Witness for C3 at a concrete input: on `sampleReqSt`, a rejecting
transfer makes finalize revert with `TransferFailed` and commit
nothing, and an accepting transfer lets the very same request finalize. -/
theorem finalize_transfer_failure_atomic_witness :
    finalizeUnstake (fun _ _ _ => true) (fun _ _ => false) 4 7 1 [] sampleReqSt =
      .error .transferFailed ∧
    commit sampleReqSt
      (finalizeUnstake (fun _ _ _ => true) (fun _ _ => false) 4 7 1 [] sampleReqSt) =
      sampleReqSt ∧
    finalizeUnstake (fun _ _ _ => true) (fun _ _ => true) 4 7 1 [] sampleReqSt =
      .ok sampleFinSt := by
  obtain ⟨h1, h2, h3⟩ := finalize_transfer_failure_atomic
    (fun _ _ _ => true) (fun _ _ => false) 4 7 1 [] sampleReqSt
    (by decide) (by decide) (by decide)
  refine ⟨h1, h2, ?_⟩
  rw [h3 (fun _ _ => true) (by decide) (by decide)]
  decide

/-- Inversion of a successful `stake` run. -/
theorem stake_ok_inv (caller v : Nat) (st st2 : LedgerState)
    (hok : stake caller v st = .ok st2) :
    ¬ (v = 0 ∨ v % STAKE_SCALE ≠ 0) ∧ ¬ UINT64_MAX < v / STAKE_SCALE ∧
    st2 = { st with
      balances := (caller, mapGet st.balances caller + v / STAKE_SCALE) :: st.balances,
      ethBalance := st.ethBalance + v,
      events := st.events ++ [.staked caller v (v / STAKE_SCALE)] } := by
  unfold stake at hok
  dsimp only at hok
  split at hok
  · exact absurd hok (by simp)
  · split at hok
    · exact absurd hok (by simp)
    · rename_i h1 h2
      injection hok with hst
      exact ⟨h1, h2, hst.symm⟩

/-- Claim C4: `stake` rejects with `InvalidStakeAmount` exactly the wei
amounts that are zero, misaligned with `STAKE_SCALE`, or whose unit
count overflows `uint64`; on any such rejection the committed state is
unchanged (no balance mutation, no event). -/
theorem stake_validation_characterization (caller v : Nat) (st : LedgerState) :
    (stake caller v st = .error .invalidStakeAmount ↔
      (v = 0 ∨ v % STAKE_SCALE ≠ 0 ∨ UINT64_MAX < v / STAKE_SCALE)) ∧
    ((v = 0 ∨ v % STAKE_SCALE ≠ 0 ∨ UINT64_MAX < v / STAKE_SCALE) →
      commit st (stake caller v st) = st) := by
  have herr : (v = 0 ∨ v % STAKE_SCALE ≠ 0 ∨ UINT64_MAX < v / STAKE_SCALE) →
      stake caller v st = .error .invalidStakeAmount := by
    intro h
    unfold stake
    by_cases h1 : v = 0 ∨ v % STAKE_SCALE ≠ 0
    · rw [if_pos h1]
    · rw [if_neg h1]
      have h2 : UINT64_MAX < v / STAKE_SCALE := by
        rcases h with h | h | h
        · exact absurd (Or.inl h) h1
        · exact absurd (Or.inr h) h1
        · exact h
      dsimp only
      rw [if_pos h2]
  have hok : ¬ (v = 0 ∨ v % STAKE_SCALE ≠ 0 ∨ UINT64_MAX < v / STAKE_SCALE) →
      stake caller v st ≠ .error .invalidStakeAmount := by
    intro hcond
    have h1 : ¬ (v = 0 ∨ v % STAKE_SCALE ≠ 0) :=
      fun hh => hcond (hh.elim Or.inl (fun hx => Or.inr (Or.inl hx)))
    have h2 : ¬ UINT64_MAX < v / STAKE_SCALE :=
      fun hh => hcond (Or.inr (Or.inr hh))
    unfold stake
    dsimp only
    rw [if_neg h1, if_neg h2]
    simp
  refine ⟨⟨fun h => ?_, herr⟩, fun h => by rw [herr h]; rfl⟩
  by_cases hc : v = 0 ∨ v % STAKE_SCALE ≠ 0 ∨ UINT64_MAX < v / STAKE_SCALE
  · exact hc
  · exact absurd h (hok hc)

/-- Witness for C4 at the spec's rejected scenario: staking `1` wei
(not a multiple of the scale) is rejected and commits nothing. -/
theorem stake_validation_characterization_witness :
    (stake 5 1 sampleReqSt = .error .invalidStakeAmount ↔
      ((1 : Nat) = 0 ∨ 1 % STAKE_SCALE ≠ 0 ∨ UINT64_MAX < 1 / STAKE_SCALE)) ∧
    commit sampleReqSt (stake 5 1 sampleReqSt) = sampleReqSt := by
  obtain ⟨h1, h2⟩ := stake_validation_characterization 5 1 sampleReqSt
  exact ⟨h1, h2 (by decide)⟩

/-- Claim C5: a successful stake of `w` wei raises the staker's
decrypted balance from `b` to `b + w / STAKE_SCALE` and emits
`Staked(staker, w, w / STAKE_SCALE)`; a successful `_requestUnstake` of
`u` units followed by a successful `finalizeUnstake` against the honest
decryption oracle lowers the decrypted balance from `b` to `b - u` (and
the success of the honestly-verified finalize forces `u ≤ b`, so the
subtraction is exact). -/
theorem stake_unstake_conservation
    (caller w u hdl fcaller : Nat) (pf : List Nat)
    (transferOk : Nat → Nat → Bool)
    (st st1 st2 st3 st4 : LedgerState) (h2 : Nat) :
    (stake caller w st = .ok st1 →
      mapGet st1.balances caller = mapGet st.balances caller + w / STAKE_SCALE ∧
      st1.events = st.events ++ [.staked caller w (w / STAKE_SCALE)]) ∧
    (_requestUnstake hdl caller u st2 = .ok (st3, h2) →
      finalizeUnstake (honestVerify st3) transferOk fcaller h2 u pf st3 = .ok st4 →
      mapGet st4.balances caller = mapGet st2.balances caller - u ∧
      u ≤ mapGet st2.balances caller) := by
  constructor
  · intro hok
    obtain ⟨-, -, hst⟩ := stake_ok_inv _ _ _ _ hok
    rw [hst]
    refine ⟨?_, rfl⟩
    dsimp only
    rw [mapGet_cons, if_pos rfl]
  · intro hreq hfin
    obtain ⟨hz, hh2, hst3⟩ := requestUnstake_ok_inv _ _ _ _ _ _ hreq
    subst hh2
    obtain ⟨-, hv, -, -, hst4⟩ := finalizeUnstake_ok_inv _ _ _ _ _ _ _ _ hfin
    have hplain : mapGet st3.handlePlain h2 =
        (if u ≤ mapGet st2.balances caller then u else 0) := by
      rw [hst3]
      dsimp only
      rw [mapGet_cons, if_pos rfl]
    have hburnt : (if u ≤ mapGet st2.balances caller then u else 0) = u := by
      have hv2 : (mapGet st3.handlePlain h2 == u) = true := hv
      rw [← hplain]
      exact beq_iff_eq.mp hv2
    have hub : u ≤ mapGet st2.balances caller := by
      by_cases hc : u ≤ mapGet st2.balances caller
      · exact hc
      · rw [if_neg hc] at hburnt
        rw [← hburnt] at hc
        exact absurd (Nat.zero_le _) hc
    refine ⟨?_, hub⟩
    rw [hst4]
    dsimp only
    rw [hst3]
    dsimp only
    rw [mapGet_cons, if_pos rfl, if_pos hub]

/-- Witness for C5 at the spec's scenarios A and B: staking
`2 × 10^18` wei mints `2 × 10^6` units; requesting and honestly
finalizing an unstake of `10^6` units leaves `10^6` units. -/
theorem stake_unstake_conservation_witness :
    (mapGet stakeSt1.balances 1 =
        mapGet stakeSt0.balances 1 + (2 * 10 ^ 18) / STAKE_SCALE ∧
      stakeSt1.events = stakeSt0.events ++
        [.staked 1 (2 * 10 ^ 18) ((2 * 10 ^ 18) / STAKE_SCALE)]) ∧
    (mapGet finSt3.balances 1 = mapGet stakeSt1.balances 1 - 1000000 ∧
      1000000 ≤ mapGet stakeSt1.balances 1) := by
  obtain ⟨h1, h2⟩ := stake_unstake_conservation 1 (2 * 10 ^ 18) 1000000 7 1 []
    (fun _ _ => true) stakeSt0 stakeSt1 stakeSt1 reqSt2 finSt3 7
  exact ⟨h1 (by decide), h2 (by decide) (by decide)⟩

/-- Claim C6: a `_requestUnstake` whose burn produces a handle that
already has a registered pending withdrawal reverts with
`InvalidUnstakeRequest`, committing nothing, so the existing
handle-to-recipient registration is never overwritten; and a successful
registration by a nonzero caller keeps the registry keys duplicate-free
(each handle maps to at most one recipient) with the new handle mapped
to the caller. -/
theorem request_duplicate_handle_guard (hdl fromAddr amt : Nat) (st : LedgerState) :
    (¬ mapGet st.unstakeRequests hdl = 0 →
      _requestUnstake hdl fromAddr amt st = .error (.invalidUnstakeRequest hdl) ∧
      commitP st (_requestUnstake hdl fromAddr amt st) = st) ∧
    (ReqInv st → fromAddr ≠ 0 → ∀ st2 h2,
      _requestUnstake hdl fromAddr amt st = .ok (st2, h2) →
      (st2.unstakeRequests.map Prod.fst).Nodup ∧
      mapGet st2.unstakeRequests hdl = fromAddr) := by
  constructor
  · intro hne
    have herr : _requestUnstake hdl fromAddr amt st =
        .error (.invalidUnstakeRequest hdl) := by
      unfold _requestUnstake
      dsimp only
      rw [if_pos hne]
    exact ⟨herr, by rw [herr]; rfl⟩
  · intro hinv hfz st2 h2 hok
    obtain ⟨hz, hh2, hst2⟩ := requestUnstake_ok_inv _ _ _ _ _ _ hok
    constructor
    · rw [hst2]
      dsimp only
      rw [List.map_cons]
      exact List.nodup_cons.mpr
        ⟨not_mem_keys_of_mapGet_eq_zero _ _ hinv.2 hz, hinv.1⟩
    · rw [hst2]
      dsimp only
      rw [mapGet_cons, if_pos rfl]

/-- Witness for C6 at concrete inputs: re-requesting live handle `7`
on `sampleReqSt` is rejected without overwriting, while the fresh
registration in `reqSt2` keeps keys duplicate-free and maps handle `7`
to its requester. -/
theorem request_duplicate_handle_guard_witness :
    (_requestUnstake 7 2 5 sampleReqSt = .error (.invalidUnstakeRequest 7) ∧
      commitP sampleReqSt (_requestUnstake 7 2 5 sampleReqSt) = sampleReqSt) ∧
    ((reqSt2.unstakeRequests.map Prod.fst).Nodup ∧
      mapGet reqSt2.unstakeRequests 7 = 1) := by
  obtain ⟨hA, -⟩ := request_duplicate_handle_guard 7 2 5 sampleReqSt
  obtain ⟨-, hB⟩ := request_duplicate_handle_guard 7 1 1000000 stakeSt1
  exact ⟨hA (by decide), hB ⟨by decide, by decide⟩ (by decide) reqSt2 7 (by decide)⟩

/-- Claim C7: every successful `finalizeUnstake` with verified clear
value `cl` decreases the contract's ETH balance by exactly
`cl * STAKE_SCALE` wei (which the pre-state balance covered), transfers
that amount to the originally registered recipient, and emits
`UnstakeFinalized` with that recipient, `cl`, and `cl * STAKE_SCALE`. -/
theorem finalize_releases_exact_amount
    (verify : Nat → Nat → List Nat → Bool) (transferOk : Nat → Nat → Bool)
    (caller h cl : Nat) (pf : List Nat) (st st' : LedgerState)
    (hok : finalizeUnstake verify transferOk caller h cl pf st = .ok st') :
    st'.ethBalance = st.ethBalance - finalizeWeiAmount cl ∧
    finalizeWeiAmount cl ≤ st.ethBalance ∧
    st'.outTransfers = st.outTransfers ++
      [(mapGet st.unstakeRequests h, finalizeWeiAmount cl)] ∧
    st'.events = st.events ++
      [.unstakeFinalized (mapGet st.unstakeRequests h) cl (finalizeWeiAmount cl)] := by
  obtain ⟨-, -, hle, -, hst⟩ := finalizeUnstake_ok_inv _ _ _ _ _ _ _ _ hok
  rw [hst]
  exact ⟨rfl, hle, rfl, rfl⟩

/-- Witness for C7 at a concrete input: finalizing handle `7` with
clear value `1` on `sampleReqSt` pays out `STAKE_SCALE` wei to the
registered recipient `3`. -/
theorem finalize_releases_exact_amount_witness :
    sampleFinSt.ethBalance = sampleReqSt.ethBalance - finalizeWeiAmount 1 ∧
    finalizeWeiAmount 1 ≤ sampleReqSt.ethBalance ∧
    sampleFinSt.outTransfers = sampleReqSt.outTransfers ++
      [(mapGet sampleReqSt.unstakeRequests 7, finalizeWeiAmount 1)] ∧
    sampleFinSt.events = sampleReqSt.events ++
      [.unstakeFinalized (mapGet sampleReqSt.unstakeRequests 7) 1
        (finalizeWeiAmount 1)] :=
  finalize_releases_exact_amount (fun _ _ _ => true) (fun _ _ => true) 4 7 1 []
    sampleReqSt sampleFinSt (by decide)

/-- Claim C8: `finalizeUnstake` does not restrict its caller — for any
two callers the outcome on the same state with the same handle, clear
value and proof is identical, and on success the ETH goes to the
recipient registered at `requestUnstake` time (the registry lookup),
never to the finalize caller. -/
theorem finalize_caller_agnostic
    (verify : Nat → Nat → List Nat → Bool) (transferOk : Nat → Nat → Bool)
    (caller1 caller2 h cl : Nat) (pf : List Nat) (st : LedgerState) :
    finalizeUnstake verify transferOk caller1 h cl pf st =
      finalizeUnstake verify transferOk caller2 h cl pf st ∧
    (∀ st', finalizeUnstake verify transferOk caller1 h cl pf st = .ok st' →
      st'.outTransfers = st.outTransfers ++
        [(mapGet st.unstakeRequests h, finalizeWeiAmount cl)]) := by
  refine ⟨rfl, ?_⟩
  intro st' hok
  obtain ⟨-, -, -, -, hst⟩ := finalizeUnstake_ok_inv _ _ _ _ _ _ _ _ hok
  rw [hst]

/-- Witness for C8 at a concrete input: callers `8` and `9` get the
same outcome, and the payout of a successful finalize goes to the
registered recipient `3`. -/
theorem finalize_caller_agnostic_witness :
    finalizeUnstake (fun _ _ _ => true) (fun _ _ => true) 8 7 1 [] sampleReqSt =
      finalizeUnstake (fun _ _ _ => true) (fun _ _ => true) 9 7 1 [] sampleReqSt ∧
    sampleFinSt.outTransfers = sampleReqSt.outTransfers ++
      [(mapGet sampleReqSt.unstakeRequests 7, finalizeWeiAmount 1)] := by
  obtain ⟨h1, h2⟩ := finalize_caller_agnostic (fun _ _ _ => true) (fun _ _ => true)
    8 9 7 1 [] sampleReqSt
  exact ⟨h1, h2 sampleFinSt (by decide)⟩

/-- Claim C9: under the registry invariant `ReqInv` (duplicate-free
keys, every live entry registered to a nonzero recipient), the
`address(0)` comparison of `finalizeUnstake` is exactly "this handle
has no registered pending withdrawal"; and `ReqInv` is preserved by
`stake`, by `_requestUnstake` from a nonzero caller (which registers
the new handle to that caller), and by `finalizeUnstake`. -/
theorem pending_entry_wellformed
    (st : LedgerState) (h caller v hdl fromAddr amt fcaller cl : Nat)
    (pf : List Nat) (verify : Nat → Nat → List Nat → Bool)
    (transferOk : Nat → Nat → Bool) :
    (ReqInv st → (mapGet st.unstakeRequests h = 0 ↔
      ∀ p ∈ st.unstakeRequests, p.1 ≠ h)) ∧
    (ReqInv st → ∀ st2, stake caller v st = .ok st2 → ReqInv st2) ∧
    (ReqInv st → fromAddr ≠ 0 → ∀ st2 h2,
      _requestUnstake hdl fromAddr amt st = .ok (st2, h2) →
      ReqInv st2 ∧ mapGet st2.unstakeRequests h2 = fromAddr) ∧
    (ReqInv st → ∀ st2,
      finalizeUnstake verify transferOk fcaller h cl pf st = .ok st2 →
      ReqInv st2) := by
  refine ⟨fun hinv => mapGet_eq_zero_iff _ _ hinv.2, ?_, ?_, ?_⟩
  · intro hinv st2 hok
    obtain ⟨-, -, hst⟩ := stake_ok_inv _ _ _ _ hok
    rw [hst]
    exact hinv
  · intro hinv hfz st2 h2 hok
    obtain ⟨hz, hh2, hst2⟩ := requestUnstake_ok_inv _ _ _ _ _ _ hok
    subst hh2
    refine ⟨⟨?_, ?_⟩, ?_⟩
    · rw [hst2]
      dsimp only
      rw [List.map_cons]
      exact List.nodup_cons.mpr
        ⟨not_mem_keys_of_mapGet_eq_zero _ _ hinv.2 hz, hinv.1⟩
    · rw [hst2]
      dsimp only
      intro p hp
      rcases List.mem_cons.mp hp with rfl | hp2
      · exact hfz
      · exact hinv.2 p hp2
    · rw [hst2]
      dsimp only
      rw [mapGet_cons, if_pos rfl]
  · intro hinv st2 hok
    obtain ⟨-, -, -, -, hst⟩ := finalizeUnstake_ok_inv _ _ _ _ _ _ _ _ hok
    rw [hst]
    refine ⟨nodup_keys_mapDelete _ _ hinv.1, ?_⟩
    intro p hp
    exact hinv.2 p (mem_of_mem_mapDelete _ _ p hp)

/-- Witness for C9 at concrete inputs, exercising the lookup
equivalence and all three preservation conjuncts. -/
theorem pending_entry_wellformed_witness :
    (mapGet sampleReqSt.unstakeRequests 8 = 0 ↔
      ∀ p ∈ sampleReqSt.unstakeRequests, p.1 ≠ 8) ∧
    ReqInv c9StakeSt ∧
    (ReqInv c9ReqSt ∧ mapGet c9ReqSt.unstakeRequests 9 = 2) ∧
    ReqInv sampleFinSt := by
  obtain ⟨h1, h2, h3, -⟩ := pending_entry_wellformed sampleReqSt 8 5 STAKE_SCALE
    9 2 0 4 1 [] (fun _ _ _ => true) (fun _ _ => true)
  obtain ⟨-, -, -, h4⟩ := pending_entry_wellformed sampleReqSt 7 5 STAKE_SCALE
    9 2 0 4 1 [] (fun _ _ _ => true) (fun _ _ => true)
  exact ⟨h1 ⟨by decide, by decide⟩,
    h2 ⟨by decide, by decide⟩ c9StakeSt (by decide),
    h3 ⟨by decide, by decide⟩ (by decide) c9ReqSt 9 (by decide),
    h4 ⟨by decide, by decide⟩ sampleFinSt (by decide)⟩

/-- Claim C10: for every `uint64` clear value `c`, the wei computation
`uint256(c) * STAKE_SCALE` in `finalizeUnstake` is bounded by
`(2^64 - 1) * 10^12`, which is far below `2^256`, so the product never
overflows and the released wei amount is always the exact product. -/
theorem finalize_wei_no_overflow (c : Nat) (hc : c ≤ UINT64_MAX) :
    finalizeWeiAmount c ≤ UINT64_MAX * STAKE_SCALE ∧
    finalizeWeiAmount c < 2 ^ 256 := by
  have h1 : finalizeWeiAmount c ≤ UINT64_MAX * STAKE_SCALE :=
    Nat.mul_le_mul_right _ hc
  exact ⟨h1, lt_of_le_of_lt h1 (by decide)⟩

/-- Witness for C10 at a concrete clear value. -/
theorem finalize_wei_no_overflow_witness :
    finalizeWeiAmount 1000000 ≤ UINT64_MAX * STAKE_SCALE ∧
    finalizeWeiAmount 1000000 < 2 ^ 256 :=
  finalize_wei_no_overflow 1000000 (by decide)
